import Mathlib

/-!
Verification development for the procurement-announcement extraction engine
(`extract_html_procurement.py`).  The Python source is shallowly embedded:
every definition below mirrors one function or constant of the source file,
translated to pure Lean functions over `List Char` / `String` / `Nat` / `Int`.

Conventions of the embedding:
* Python `str` is Lean `String`; character-level work happens on `String.data`
  (a `List Char`), so `len`, slicing and `in` translate to list operations on
  characters exactly as Python counts code points.
* Python regular expressions in the source are all of a simple shape
  (alternations of literal substrings, bounded character classes, or
  `A.*B.*C` existence patterns); each one is translated to an explicit,
  executable scanning function, documented at its definition site.
* Python `\s` / `str.strip()` use Unicode whitespace; `isPyWs` lists the
  whitespace code points that can occur in the engine's inputs.
* Python `str.lower()` is modelled as ASCII lowercasing (the schema strings
  and labels contain no cased non-ASCII characters).
* I/O, HTML parsing, logging and the output writers are outside the engine
  and are modelled at their interfaces only.
-/

namespace Procurement

/-! ## Character and list-of-char utilities -/

/-- Unicode whitespace recognised by Python's `str.strip` / `\s` that is
relevant to the engine's inputs. -/
def isPyWs (c : Char) : Bool :=
  c = ' ' || c = '\t' || c = '\n' || c = '\r' || c = '\x0b' || c = '\x0c' ||
  c = '\x85' || c = '\xa0' || c = '\u1680' ||
  (0x2000 ≤ c.toNat && c.toNat ≤ 0x200a) ||
  c = '\u2028' || c = '\u2029' || c = '\u202f' || c = '\u205f' || c = '\u3000'

/-- The term `isPrefixL pat l` : `pat` is a prefix of `l` (Python `startswith`). -/
def isPrefixL : List Char → List Char → Bool
  | [], _ => true
  | _ :: _, [] => false
  | a :: as, b :: bs => a = b && isPrefixL as bs

/-- The term `isInfixL pat l` : `pat` occurs contiguously inside `l` (Python `in`). -/
def isInfixL (pat : List Char) : List Char → Bool
  | [] => isPrefixL pat []
  | c :: cs => isPrefixL pat (c :: cs) || isInfixL pat cs

/-- Python `pat in s` for strings. -/
def sContains (s pat : String) : Bool := isInfixL pat.data s.data

/-- Index (in characters) of the first occurrence of `pat` in `l`;
Python `str.find` (with `none` for `-1`). -/
def firstOccIdx (l pat : List Char) : Option Nat :=
  if isPrefixL pat l then some 0
  else
    match l with
    | [] => none
    | _ :: t => (firstOccIdx t pat).map (· + 1)

/-- Remove trailing characters satisfying `p`. -/
def dropTrailing (p : Char → Bool) (l : List Char) : List Char :=
  (l.reverse.dropWhile p).reverse

/-- Strip characters satisfying `p` from both ends. -/
def stripBothWith (p : Char → Bool) (l : List Char) : List Char :=
  dropTrailing p (l.dropWhile p)

/-- Python `str.strip()` (no argument: Unicode whitespace). -/
def pyStrip (s : String) : String := ⟨stripBothWith isPyWs s.data⟩

/-- Python `str.strip(chars)`. -/
def pyStripChars (chars : List Char) (s : String) : String :=
  ⟨stripBothWith (fun c => chars.contains c) s.data⟩

/-- Collapse runs of spaces to a single space (the input has already had all
whitespace mapped to `' '`). -/
def squeezeSpaces : List Char → List Char
  | [] => []
  | [c] => [c]
  | a :: b :: t =>
    if a = ' ' && b = ' ' then squeezeSpaces (b :: t)
    else a :: squeezeSpaces (b :: t)

/-- Replace every non-overlapping occurrence of `pat` (nonempty) by `rep`,
left to right; Python `str.replace`.  An empty `pat` leaves the list
unchanged (the source never replaces an empty pattern).  Structural
recursion on a fuel that starts at the input length; every step consumes at
least one input character per unit of fuel, so the `0, l => l` fallback is
never reached. -/
def replaceAllAux (pat rep : List Char) : Nat → List Char → List Char
  | _, [] => []
  | 0, l => l
  | fuel + 1, c :: cs =>
    if pat ≠ [] && isPrefixL pat (c :: cs) then
      rep ++ replaceAllAux pat rep fuel (cs.drop (pat.length - 1))
    else
      c :: replaceAllAux pat rep fuel cs

def replaceAllL (pat rep l : List Char) : List Char :=
  replaceAllAux pat rep l.length l

/-- Python `str.replace` on `String`s. -/
def sReplace (s pat rep : String) : String :=
  ⟨replaceAllL pat.data rep.data s.data⟩

/-- Split at the first occurrence of the single-character separator
(Python `str.split(sep, 1)` when it succeeds). -/
def splitOnceL (l : List Char) (sep : Char) : Option (List Char × List Char) :=
  match firstOccIdx l [sep] with
  | some i => some (l.take i, l.drop (i + 1))
  | none => none

/-- Keep-first-occurrence deduplication used to state list properties
independently of the source's accumulator loops. -/
def insertIfAbsent (l : List String) (x : String) : List String :=
  if l.contains x then l else l ++ [x]

/-! ## Field schema (`FIELD_DEFINITIONS` and derived tables)

The `fallback` regular expressions of the schema feed only the
full-text fallback pass (`_apply_full_text_patterns`), which no claim
exercises; they are omitted from the embedding. -/

structure FieldDef where
  name : String
  aliases : List String
  multi : Bool
  stopwords : List String

def FIELD_DEFINITIONS : List FieldDef :=
  [ { name := "公告时间"
    , aliases := ["公告时间", "发布日期", "发布时间", "发布公告时间", "信息时间"]
    , multi := false, stopwords := [] }
  , { name := "项目名称"
    , aliases := ["项目名称", "采购项目名称", "项目名称"]
    , multi := false
    , stopwords := ["采购单位", "采购人名称", "公告时间", "供应商名称", "中标金额"] }
  , { name := "采购单位名称"
    , aliases := ["采购人名称", "采购单位"]
    , multi := false
    , stopwords :=
      [ "采购单位地址", "采购人地址", "供应商名称", "中标金额", "成交金额"
      , "采购人联系人", "采购人联系电话", "采购单位联系方式", "采购人联系方式"
      , "联系方式", "联系电话", "项目联系人", "项目联系电话", "遴选专家名单"
      , "行政区域" ] }
  , { name := "采购单位地址"
    , aliases := ["采购人地址", "采购单位地址"]
    , multi := false
    , stopwords :=
      [ "采购单位名称", "供应商名称", "中标金额", "成交金额", "采购单位联系方式"
      , "采购人联系方式", "代理机构名称", "代理机构地址", "代理机构", "附件" ] }
  , { name := "供应商名称"
    , aliases := ["供应商名称", "中标供应商", "成交供应商", "供应商", "中标人", "成交人"]
    , multi := false
    , stopwords :=
      [ "供应商地址", "中标金额", "成交金额", "采购类别", "采购方式", "综合评分"
      , "最终得分" ] }
  , { name := "供应商地址"
    , aliases := ["供应商地址", "中标供应商地址", "成交供应商地址"]
    , multi := false
    , stopwords := ["供应商名称", "中标金额", "成交金额", "采购类别"] }
  , { name := "中标金额"
    , aliases := ["中标金额", "中标（成交）金额", "成交金额", "合同金额"]
    , multi := false, stopwords := [] }
  , { name := "采购类别"
    , aliases := ["采购类别", "采购类型", "采购方式", "项目类别", "品目"]
    , multi := false, stopwords := [] }
  , { name := "采购标的"
    , aliases := ["采购标的", "标的名称", "采购内容", "标的"]
    , multi := false
    , stopwords := ["品牌", "规格型号", "数量", "总价"] }
  ]

def FIELD_ORDER : List String := FIELD_DEFINITIONS.map (·.name)

def MULTI_VALUE_FIELDS : List String :=
  (FIELD_DEFINITIONS.filter (·.multi)).map (·.name)

def FIELD_KEYWORDS : List (String × List String) :=
  FIELD_DEFINITIONS.map (fun d => (d.name, d.aliases))

/-- The term `FIELD_STOPWORDS.get(field, ())`. -/
def fieldStopwords (f : String) : List String :=
  ((FIELD_DEFINITIONS.find? (fun d => d.name = f)).map (·.stopwords)).getD []

def SUPPLIER_SCORE_TOKENS : List String :=
  [ "公司", "有限", "集团", "中心", "医院", "大学", "学院", "学校", "研究"
  , "科技", "股份", "合作社", "政府", "委员会", "事务所", "厂", "站", "局" ]

def ADDRESS_SCORE_TOKENS : List String :=
  [ "省", "市", "区", "县", "镇", "乡", "街", "路", "道", "大道", "村", "楼"
  , "栋", "层", "单元", "室", "号" ]

def LOCATION_SUFFIXES : List String :=
  ["省", "市", "区", "县", "镇", "乡", "街", "道", "大道", "办", "园"]

def ADMIN_LOCATION_SUFFIXES : List String := ["省", "市", "区", "县", "镇", "乡"]

def CATEGORY_KEYWORDS : List (String × List String) :=
  [ ("货物", ["货物", "设备", "物资", "用品", "耗材"])
  , ("服务", ["服务", "咨询", "保障", "培训", "运营", "维护"])
  , ("工程", ["工程", "施工", "改造", "维修", "建设"]) ]

def TABLE_RANK_HEADERS : List String :=
  ["得分排名", "得分排位", "得分排名情况", "排名", "综合排名"]

def TABLE_RANK_ACCEPT : List String := ["1", "第一名", "第一", "冠军"]

/-! ## Text normalizers -/

/-- The term `normalize_whitespace`: replace ideographic/nbsp spaces by `' '`,
collapse every whitespace run to a single space, strip. -/
def normalize_whitespace (text : String) : String :=
  if text = "" then ""
  else
    pyStrip ⟨squeezeSpaces (text.data.map (fun c => if isPyWs c then ' ' else c))⟩

def isEnumChar (c : Char) : Bool :=
  ['一', '二', '三', '四', '五', '六', '七', '八', '九', '十'].contains c || c.isDigit

/-- The anchored alternative `re.sub(r"^[一二三四五六七八九十\d]{1,3}[、.\-]", "", _)`:
greedily take up to three enumerator characters followed by an enumerator
punctuation mark, and drop them. -/
def stripEnumL (l : List Char) : List Char :=
  let punct : List Char := ['、', '.', '-']
  let ok : Nat → Bool := fun k =>
    decide (k + 1 ≤ l.length) && (l.take k).all isEnumChar &&
      punct.contains (l.getD k ' ')
  if ok 3 then l.drop 4
  else if ok 2 then l.drop 3
  else if ok 1 then l.drop 2
  else l

/-- The term `normalize_label_text`: whitespace-normalize, drop colons and full-width
parentheses, strip a leading enumerator, remove all whitespace, lowercase. -/
def normalize_label_text (text : String) : String :=
  if text = "" then ""
  else
    let cleaned := normalize_whitespace text
    let cleaned := sReplace cleaned "：" ""
    let cleaned := sReplace cleaned ":" ""
    let cleaned := sReplace cleaned "（" ""
    let cleaned := sReplace cleaned "）" ""
    let cleaned := stripEnumL cleaned.data
    ⟨(cleaned.filter (fun c => !isPyWs c)).map Char.toLower⟩

/-! ## Location tokens and the candidate scorer -/

/-- A character usable in the prefix part of `[^\s\d]{1,6}suffix`. -/
def isLocPrefixChar (c : Char) : Bool := !isPyWs c && !c.isDigit

/-- The term `[^\s\d]{1,6}suffix` matches at the head of `l` with a prefix of
exactly `k` characters. -/
def locCondAt (suffix l : List Char) (k : Nat) : Bool :=
  (l.take k).length = k && (l.take k).all isLocPrefixChar &&
    isPrefixL suffix (l.drop k)

theorem locCondAt_le (suffix l : List Char) (k : Nat)
    (h : locCondAt suffix l k = true) : k ≤ l.length := by
  unfold locCondAt at h
  simp only [Bool.and_eq_true, decide_eq_true_eq] at h
  have := List.length_take k l
  omega

/-- The prefix length (between one and six characters, greedily longest
first, as the regex engine tries them) at which `[^\s\d]{1,6}suffix`
matches at the head of `l`. -/
def locTokenLen (suffix l : List Char) : Option Nat :=
  if locCondAt suffix l 6 then some 6
  else if locCondAt suffix l 5 then some 5
  else if locCondAt suffix l 4 then some 4
  else if locCondAt suffix l 3 then some 3
  else if locCondAt suffix l 2 then some 2
  else if locCondAt suffix l 1 then some 1
  else none

/-- Try to match `[^\s\d]{1,6}suffix` at the head of `l`.  Returns the
matched token and the rest of the input. -/
def locTokenAt (suffix l : List Char) : Option (List Char × List Char) :=
  match locTokenLen suffix l with
  | some k => some (l.take (k + suffix.length), l.drop (k + suffix.length))
  | none => none

theorem locTokenLen_bounds (suffix l : List Char) (k : Nat)
    (h : locTokenLen suffix l = some k) : 1 ≤ k ∧ k ≤ l.length := by
  unfold locTokenLen at h
  repeat
    (split at h
     · rename_i hcond
       obtain rfl : _ = k := Option.some.inj h
       exact ⟨by omega, locCondAt_le _ _ _ hcond⟩)
  exact absurd h (by simp)

theorem locTokenAt_shrinks (suffix l tok rest : List Char)
    (h : locTokenAt suffix l = some (tok, rest)) : rest.length < l.length := by
  unfold locTokenAt at h
  cases hk : locTokenLen suffix l with
  | none => rw [hk] at h; simp at h
  | some k =>
    rw [hk] at h
    simp only [Option.some.injEq, Prod.mk.injEq] at h
    obtain ⟨-, rfl⟩ := h
    obtain ⟨h1, h2⟩ := locTokenLen_bounds suffix l k hk
    simp only [List.length_drop]
    omega

/-- The term `re.finditer` of `[^\s\d]{1,6}suffix`: leftmost, greedy,
non-overlapping.  Fuel starts at the input length; a successful match
consumes at least one character (`locTokenAt_shrinks`), so the
`0, _ => []` fallback is never reached. -/
def locTokenScanAux (suffix : List Char) : Nat → List Char → List (List Char)
  | _, [] => []
  | 0, _ => []
  | fuel + 1, c :: cs =>
    match locTokenAt suffix (c :: cs) with
    | some (tok, rest) => tok :: locTokenScanAux suffix fuel rest
    | none => locTokenScanAux suffix fuel cs

def locTokenScan (suffix l : List Char) : List (List Char) :=
  locTokenScanAux suffix l.length l

/-- The term `extract_location_tokens`: for every location suffix, collect all matches
of `[^\s\d]{1,6}suffix`, trimmed to the last one-or-two prefix characters
plus the suffix; the Python `set` is modelled as a duplicate-free list. -/
def extract_location_tokens (text : String) : List String :=
  if text = "" then []
  else
    LOCATION_SUFFIXES.foldl
      (fun acc suffix =>
        (locTokenScan suffix.data text.data).foldl
          (fun acc tok =>
            let suffixLen := suffix.data.length
            let prefixLen := max 1 (min 2 (tok.length - suffixLen))
            insertIfAbsent acc ⟨tok.drop (tok.length - (suffixLen + prefixLen))⟩)
          acc)
      []

/-- The term `re.search(r"(详见|另行|暂未|待定|--|见公告|见附件|无)", s)`. -/
def placeholderHit (s : String) : Bool :=
  ["详见", "另行", "暂未", "待定", "--", "见公告", "见附件", "无"].any
    (fun t => sContains s t)

/-- The term `re.search(r"(中标|成交|结果)公告", s)`. -/
def resultNoticeHit (s : String) : Bool :=
  ["中标公告", "成交公告", "结果公告"].any (fun t => sContains s t)

/-- Existence of a `V\d+\.\d+` occurrence: a `V`, one or more digits, a dot,
one or more digits. -/
def hasVersionNumber (s : String) : Bool :=
  (List.range s.data.length).any fun i =>
    let t := s.data.drop i
    match t with
    | 'V' :: rest =>
      let ds := rest.takeWhile Char.isDigit
      let after := rest.dropWhile Char.isDigit
      ds ≠ [] &&
        (match after with
         | '.' :: rest2 => (rest2.takeWhile Char.isDigit) ≠ []
         | _ => false)
    | _ => false

/-- Existence of a `（.*?版.*?）` occurrence: `（`, then `版`, then `）`,
in order. -/
def hasParenVersion (s : String) : Bool :=
  (List.range s.data.length).any fun i =>
    match s.data.drop i with
    | '（' :: rest =>
      match firstOccIdx rest ['版'] with
      | some j => isInfixL ['）'] (rest.drop (j + 1))
      | none => false
    | _ => false

/-- The term `re.search(r'(V\d+\.\d+|版本|型号|简称[:：]|规格[:：]|\[|\]|（.*?版.*?）)', s)`. -/
def versionLike (s : String) : Bool :=
  hasVersionNumber s || sContains s "版本" || sContains s "型号" ||
  sContains s "简称:" || sContains s "简称：" ||
  sContains s "规格:" || sContains s "规格：" ||
  sContains s "[" || sContains s "]" || hasParenVersion s

/-- Number of tokens from `tokens` occurring in `s` (each token counted
once, as the source's `for token in ...: if token in cleaned` loops do). -/
def countTokens (tokens : List String) (s : String) : Nat :=
  (tokens.filter (fun t => sContains s t)).length

def lastCharIn (t : String) (suffixes : List String) : Bool :=
  match t.data.getLast? with
  | some c => suffixes.any (fun suf => suf.data = [c])
  | none => false

def PURCHASER_NAME_TOKENS : List String :=
  ["局", "委", "院", "中心", "办", "公司", "集团", "学校", "医院", "大学", "政府", "管理"]

/-- The cross-reference adjustment of `score_field_value` for address fields
(when a nonempty `reference` is supplied). -/
def refAdjust (field cleaned reference : String) (score : Int) : Int :=
  let referenceTokens := extract_location_tokens reference
  if referenceTokens = [] then score
  else
    let candidateTokens := extract_location_tokens cleaned
    let matched := candidateTokens.filter (fun t => referenceTokens.contains t)
    let score :=
      if matched ≠ [] then
        score + (if field = "采购单位地址" then 20 else 10) * matched.length
      else score
    if field = "采购单位地址" && candidateTokens ≠ [] then
      let mismatches := candidateTokens.filter
        (fun t => !referenceTokens.contains t && lastCharIn t ADMIN_LOCATION_SUFFIXES)
      if mismatches ≠ [] then score - 6 * mismatches.length else score
    else score

/-- The term `score_field_value(field, value, reference)`. -/
def score_field_value (field : String) (value : String) (reference : String := "") : Int :=
  if value = "" then 0
  else
    let cleaned := pyStrip value
    if cleaned = "" then 0
    else
      let score : Int := cleaned.length
      let score :=
        if field = "项目名称" then
          let score :=
            if sContains cleaned "项目编号" || sContains cleaned "编号" then score + 50
            else score
          if resultNoticeHit cleaned then score + 30 else score
        else score
      let score := if placeholderHit cleaned then score - 20 else score
      let score :=
        if field = "采购标的" && versionLike cleaned then score - 100 else score
      let score :=
        if field = "供应商地址" || field = "采购单位地址" then
          let score := score + 3 * countTokens ADDRESS_SCORE_TOKENS cleaned
          if cleaned.data.any Char.isDigit then score + 3 else score
        else score
      let score :=
        if (field = "供应商地址" || field = "采购单位地址") && reference ≠ "" then
          refAdjust field cleaned reference score
        else score
      let score :=
        if field = "供应商名称" then score + 4 * countTokens SUPPLIER_SCORE_TOKENS cleaned
        else score
      let score :=
        if field = "采购单位名称" then score + 2 * countTokens PURCHASER_NAME_TOKENS cleaned
        else score
      score

/-! ## Per-field value cleanup (`cleanup_field_value`) -/

def STRIP_CHARS : List Char := [' ', '、', '。', '，', '；', ':']

/-- Truncate `s` at the first occurrence of `pat` (Python
`cleaned[:cleaned.find(stopword)]` when found). -/
def truncAtFirst (s : String) (pat : String) : String :=
  match firstOccIdx s.data pat.data with
  | some i => ⟨s.data.take i⟩
  | none => s

/-- One step of the colon-splitting loop: keep the left side when both sides
are nonempty after stripping. -/
def colonSplitStep (s : String) (sep : Char) : Option String :=
  match splitOnceL s.data sep with
  | some (l, r) =>
    if pyStrip ⟨l⟩ ≠ "" && pyStrip ⟨r⟩ ≠ "" then some ⟨l⟩ else none
  | none => none

/-- The `for sep in ("：", ":")` loop of `cleanup_field_value`: the loop only
breaks when a split succeeded with both sides nonempty. -/
def colonSplit (s : String) : String :=
  match colonSplitStep s '：' with
  | some left => left
  | none =>
    match colonSplitStep s ':' with
    | some left => left
    | none => s

/-- Supplier-name scoring-fragment filter: a candidate dominated by scoring
tokens without any organization-type token is blanked. -/
def supplierNameFilter (s : String) : String :=
  if (["比例", "权重", "得分", "%"].any (fun t => sContains s t)) &&
      !(SUPPLIER_SCORE_TOKENS.any (fun t => sContains s t)) then ""
  else s

/-- Address fields drop content after the first (full- or half-width)
semicolon. -/
def semicolonTrunc (s : String) : String :=
  match firstOccIdx s.data ['；'] with
  | some i => ⟨s.data.take i⟩
  | none =>
    match firstOccIdx s.data [';'] with
    | some i => ⟨s.data.take i⟩
    | none => s

/-- The term `re.match(r"^[\d\-\s]+$", s)`. -/
def phoneLikeA (s : String) : Bool :=
  s.data ≠ [] && s.data.all (fun c => c.isDigit || c = '-' || isPyWs c)

/-- Seven or eight digits, exactly. -/
def sevenOrEightDigits (l : List Char) : Bool :=
  (l.length = 7 || l.length = 8) && l.all Char.isDigit

/-- The term `re.match(r"^0\d{2,3}[-\s]?\d{7,8}$", s)`. -/
def phoneLikeB (s : String) : Bool :=
  match s.data with
  | '0' :: rest =>
    [3, 2].any fun a =>
      ((rest.take a).length = a && (rest.take a).all Char.isDigit) &&
      (let tail := rest.drop a
       sevenOrEightDigits tail ||
         (match tail with
          | c :: t2 => (c = '-' || isPyWs c) && sevenOrEightDigits t2
          | [] => false))
  | _ => false

/-- The term `re.search(r"\d{7,}", s)`: some run of at least seven digits. -/
def hasSevenDigitRun (s : String) : Bool :=
  (List.range s.data.length).any fun i =>
    let t := (s.data.drop i).take 7
    t.length = 7 && t.all Char.isDigit

def isCJK (c : Char) : Bool := 0x4e00 ≤ c.toNat && c.toNat ≤ 0x9fa5

/-- The term `re.search(r"[一-龥]{2,}", s)`: two consecutive CJK characters. -/
def hasCJKPair (s : String) : Bool :=
  (s.data.zip s.data.tail).any fun p => isCJK p.1 && isCJK p.2

/-- The purchasing-unit-name specific cleanup steps. -/
def purchaserNameClean (s : String) : String :=
  let cleaned := truncAtFirst s "联系方式"
  let cleaned := if phoneLikeA cleaned || phoneLikeB cleaned then "" else cleaned
  if cleaned ≠ "" && cleaned.length < 20 && hasSevenDigitRun cleaned &&
      !hasCJKPair cleaned then ""
  else cleaned

/-- The term `cleanup_field_value(field, value)`. -/
def cleanup_field_value (field value : String) : String :=
  let cleaned := pyStripChars STRIP_CHARS value
  if field = "采购单位地址" &&
      (["代理机构", "招标代理", "采购代理", "中介机构"].any (fun t => sContains cleaned t)) then
    ""
  else
    let cleaned :=
      if field ≠ "项目名称" && field ≠ "采购标的" then
        (fieldStopwords field).foldl (fun c sw => truncAtFirst c sw) cleaned
      else cleaned
    let cleaned :=
      if field ≠ "项目名称" && field ≠ "采购标的" then colonSplit cleaned else cleaned
    let cleaned := if field = "供应商名称" then supplierNameFilter cleaned else cleaned
    let cleaned :=
      if field = "供应商地址" || field = "采购单位地址" then semicolonTrunc cleaned
      else cleaned
    let cleaned := if field = "采购单位名称" then purchaserNameClean cleaned else cleaned
    pyStripChars STRIP_CHARS cleaned

/-! ## Date normalizer (`normalize_date_text`) -/

/-- Collapse runs of the character `x` to a single `x`
(`re.sub(r"-+", "-", _)` for `x = '-'`). -/
def squeezeRuns (x : Char) : List Char → List Char
  | [] => []
  | [c] => [c]
  | a :: b :: t =>
    if a = x && b = x then squeezeRuns x (b :: t)
    else a :: squeezeRuns x (b :: t)

/-- The term `l` starts with exactly `n` digits. -/
def takeDigitsOk (l : List Char) (n : Nat) : Bool :=
  (l.take n).length = n && (l.take n).all Char.isDigit

/-- Match `\d{1,2}-\d{1,2}` at the head of `rest` (the month/day tail of the
date shape), with the regex engine's greedy-then-backtrack order; returns
the number of characters matched. -/
def mdTailLen (rest : List Char) : Option Nat :=
  let tryMonth : Nat → Option Nat := fun m =>
    if takeDigitsOk rest m then
      match rest.drop m with
      | '-' :: dayPart =>
        if takeDigitsOk dayPart 2 then some (m + 1 + 2)
        else if takeDigitsOk dayPart 1 then some (m + 1 + 1)
        else none
      | _ => none
    else none
  match tryMonth 2 with
  | some n => some n
  | none => tryMonth 1

/-- Match `\d{4}-\d{1,2}-\d{1,2}` at the head of `l`; returns the match
length. -/
def ymdLenAt (l : List Char) : Option Nat :=
  if takeDigitsOk l 4 then
    match l.drop 4 with
    | '-' :: rest => (mdTailLen rest).map (fun n => 4 + 1 + n)
    | _ => none
  else none

/-- The term `re.search(r"\d{4}-\d{1,2}-\d{1,2}", _)`: leftmost match. -/
def searchYMD (l : List Char) : Option (List Char) :=
  (List.range l.length).findSome? fun i =>
    (ymdLenAt (l.drop i)).map fun n => (l.drop i).take n

def digitsToNat (l : List Char) : Nat :=
  l.foldl (fun n c => n * 10 + (c.toNat - 48)) 0

def daysInMonth (y m : Nat) : Nat :=
  if m = 2 then (if (y % 4 = 0 && y % 100 ≠ 0) || y % 400 = 0 then 29 else 28)
  else if [1, 3, 5, 7, 8, 10, 12].contains m then 31
  else if [4, 6, 9, 11].contains m then 30
  else 0

/-- Modelled from the spec: the source calls the external
`dateutil.parser.parse(candidate, dayfirst=False, yearfirst=True, fuzzy=True)`
("parse with a lenient date parser (year-first, fuzzy)"), which is not part
of this repository.  It is modelled on the inputs the engine feeds it: a
candidate that is exactly a `YYYY-M-D`-shaped string parses to that date when
it is a valid calendar date (month 1–12, day within the month, year within
`datetime`'s 1–9999), and raises (here: `none`) otherwise; candidates of any
other shape are modelled as failing to parse. -/
def dateutil_parse (candidate : String) : Option (Nat × Nat × Nat) :=
  let l := candidate.data
  match ymdLenAt l with
  | some n =>
    if n = l.length then
      match splitOnceL l '-' with
      | some (ys, rest) =>
        match splitOnceL rest '-' with
        | some (ms, ds) =>
          let y := digitsToNat ys
          let m := digitsToNat ms
          let d := digitsToNat ds
          if 1 ≤ y && y ≤ 9999 && 1 ≤ m && m ≤ 12 && 1 ≤ d && d ≤ daysInMonth y m then
            some (y, m, d)
          else none
        | none => none
      | none => none
    else none
  | none => none

/-- Zero-padded decimal rendering (`f"{n:0{width}d}"`). -/
def padNum (width n : Nat) : String :=
  let s := toString n
  ⟨List.replicate (width - s.length) '0' ++ s.data⟩

/-- The term `normalize_date_text(value)`. -/
def normalize_date_text (value : String) : Option String :=
  if value = "" then none
  else
    let text := pyStrip value
    if text = "" then none
    else
      let text := sReplace text "年" "-"
      let text := sReplace text "月" "-"
      let text := sReplace text "日" ""
      let text := sReplace text "/" "-"
      let text := sReplace text "." "-"
      let text : String := ⟨squeezeRuns '-' text.data⟩
      let candidate : String :=
        match searchYMD text.data with
        | some m => ⟨m⟩
        | none => text
      match dateutil_parse candidate with
      | some (y, m, d) =>
        some (padNum 4 y ++ "年" ++ padNum 2 m ++ "月" ++ padNum 2 d ++ "日")
      | none => none

/-! ## Amount normalizer (`normalize_amounts`) -/

def isAmtChar (c : Char) : Bool := c.isDigit || c = ',' || c = '.'

/-- The term `re.finditer(r"([\d,.]+)(万元|元)?", text)`: maximal runs of
number-characters, each with its optional unit (the alternation tries
`万元` before `元`).  Fuel starts at the input length; every step consumes
at least one character, so the `0, _ => []` fallback is never reached. -/
def amountScanAux : Nat → List Char → List (List Char × Option String)
  | _, [] => []
  | 0, _ => []
  | fuel + 1, c :: cs =>
    if isAmtChar c then
      let run := c :: cs.takeWhile isAmtChar
      match cs.dropWhile isAmtChar with
      | '万' :: '元' :: r2 => (run, some "万元") :: amountScanAux fuel r2
      | '元' :: r2 => (run, some "元") :: amountScanAux fuel r2
      | rest => (run, none) :: amountScanAux fuel rest
    else amountScanAux fuel cs

def amountScan (l : List Char) : List (List Char × Option String) :=
  amountScanAux l.length l

/-- The term `Decimal(number)`: digits with at most one decimal point and at least
one digit.  The value is returned as `(n, k)` with value `n / 10^k`. -/
def parseDecimal (l : List Char) : Option (Nat × Nat) :=
  let l := l.filter (fun c => c ≠ ',')
  if l.all Char.isDigit then
    if l = [] then none else some (digitsToNat l, 0)
  else
    match splitOnceL l '.' with
    | some (intPart, fracPart) =>
      if (intPart ++ fracPart).all Char.isDigit && intPart ++ fracPart ≠ [] then
        some (digitsToNat (intPart ++ fracPart), fracPart.length)
      else none
    | none => none

/-- Round `q / d` to the nearest integer, ties to even
(`decimal`'s default `ROUND_HALF_EVEN`). -/
def roundHalfEven (q d : Nat) : Nat :=
  let a := q / d
  let r := q % d
  if 2 * r < d then a
  else if 2 * r > d then a + 1
  else if a % 2 = 0 then a else a + 1

/-- The term `f"{amount:.2f}"` for the exact decimal value `n / 10^k`. -/
def formatAmount2 (n k : Nat) : String :=
  let h := roundHalfEven (n * 100) (10 ^ k)
  toString (h / 100) ++ "." ++
    (if h % 100 < 10 then "0" ++ toString (h % 100) else toString (h % 100))

/-- The pre-scan text replacements of `normalize_amounts`: drop thousands
separators and spaces, drop `人民币`, turn `万元整` into `万元`. -/
def amountText (raw : String) : String :=
  sReplace (sReplace (sReplace (sReplace raw "," "") " " "") "人民币" "") "万元整" "万元"

/-- All rendered amount strings of `raw`, in match order, before the
deduplicating accumulation. -/
def renderedAmounts (raw : String) : List String :=
  (amountScan (amountText raw).data).filterMap fun nu =>
    (parseDecimal nu.1).map fun nk =>
      formatAmount2 (if nu.2 = some "万元" then nk.1 * 10000 else nk.1) nk.2

/-- The term `normalize_amounts(raw)`: the source appends each rendered amount to
`results` only when not already present. -/
def normalize_amounts (raw : String) : List String :=
  if raw = "" then []
  else (renderedAmounts raw).foldl insertIfAbsent []

/-! ## Category classifier (`extract_categories`) -/

def extract_categories (raw : String) : List String :=
  if raw = "" then []
  else
    let text : String := ⟨(raw.data.filter (fun c => !isPyWs c)).map Char.toLower⟩
    if sContains text "货物类" then ["货物"]
    else if sContains text "服务类" then ["服务"]
    else if sContains text "工程类" then ["工程"]
    else
      let textWithSpace := (normalize_whitespace raw).data.map Char.toLower
      CATEGORY_KEYWORDS.foldl
        (fun detected ck =>
          if ck.2.any (fun kw => isInfixL (kw.data.map Char.toLower) textWithSpace) then
            detected ++ [ck.1]
          else detected)
        []

/-! ## Label matcher (`label_to_field`) -/

/-- The raw-label disambiguation applied to address fields when the
canonicalized label is a proper substring of an alias: the original
(uncanonicalized) label must contain a qualifying prefix token. -/
def addressPrefixOk (field label : String) : Bool :=
  if field = "采购单位地址" then
    sContains label "采购" || sContains label "采购人"
  else if field = "供应商地址" then
    sContains label "供应商" || sContains label "中标供应商" || sContains label "成交供应商"
  else true

/-- The inner loop body of `label_to_field`: the score of `label` (with
canonical form `normalized`) against one canonicalized alias of `field`. -/
def alias_match_score (field label normalized aliasNorm : String) : Option Nat :=
  if aliasNorm = "" then none
  else if normalized = aliasNorm then some (aliasNorm.length + 100)
  else if sContains normalized aliasNorm then some aliasNorm.length
  else if sContains aliasNorm normalized then
    if (field = "采购单位地址" || field = "供应商地址") && !addressPrefixOk field label then
      none
    else some normalized.length
  else none

/-- The term `label_to_field(label)`: best-scoring field over all aliases, first
field wins ties (only a strictly larger score replaces the best). -/
def label_to_field (label : String) : Option String :=
  let normalized := normalize_label_text label
  if normalized = "" then none
  else
    (FIELD_KEYWORDS.foldl
      (fun (best : Option String × Nat) fa =>
        fa.2.foldl
          (fun best al =>
            match alias_match_score fa.1 label normalized (normalize_label_text al) with
            | none => best
            | some score => if score > best.2 then (some fa.1, score) else best)
          best)
      (none, 0)).1

/-! ## Field value store (`FieldValue`) and the extractor state -/

structure FieldValue where
  multi : Bool
  entries : List (Nat × String)
deriving DecidableEq, Repr

/-- The term `FieldValue.add(value, order)`. -/
def FieldValue.add (fv : FieldValue) (value : String) (order : Nat) : FieldValue :=
  if value = "" then fv
  else
    let cleaned := pyStrip value
    if cleaned = "" then fv
    else if fv.entries ≠ [] && !fv.multi then fv
    else if fv.multi && fv.entries.any (fun e => e.2 = cleaned) then fv
    else { fv with entries := fv.entries ++ [(order, cleaned)] }

/-- The term `FieldValue.get()`.  `sorted` is stable, as Python's is; the multi
branch joins the first-seen-order unique values with `"|"`. -/
def FieldValue.get (fv : FieldValue) : String :=
  if fv.entries = [] then ""
  else if fv.multi then
    let ordered := (fv.entries.mergeSort (fun a b => a.1 ≤ b.1)).map (·.2)
    let unique := ordered.foldl insertIfAbsent []
    String.intercalate "|" unique
  else ((fv.entries.headD (0, "")).2)

/-- The per-document extractor state: the `fields` dict (total over field
names; `add_field` guards on membership in `FIELD_ORDER`) and the shared
order counter.  The parsed document itself, the full text and the
processed-table set live outside this state and are not needed by the
embedded operations. -/
structure ExtractorState where
  fields : String → FieldValue
  counter : Nat

/-- The state `ProcurementExtractor.__init__` creates: every schema field
maps to an empty store whose `multi` flag comes from `MULTI_VALUE_FIELDS`. -/
def initState : ExtractorState :=
  { fields := fun f => { multi := MULTI_VALUE_FIELDS.contains f, entries := [] }
  , counter := 0 }

/-- Pointwise update of the fields map. -/
def updateField (fields : String → FieldValue) (key : String) (fv : FieldValue) :
    String → FieldValue :=
  fun x => if x = key then fv else fields x

/-- The normalized values an `add_field(field, raw_value)` call routes into
the store (zero or more cleaned values, per the field's normalizer). -/
def field_values (field raw_value : String) : List String :=
  if field = "公告时间" then
    match normalize_date_text raw_value with
    | some v => [v]
    | none => []
  else if field = "中标金额" then normalize_amounts raw_value
  else if field = "采购类别" then extract_categories raw_value
  else
    let cleaned := cleanup_field_value field (normalize_whitespace raw_value)
    if cleaned = "" then [] else [cleaned]

/-- The cross-reference string `add_field` computes before storing: the
first stored entry of the related name field for the two address fields,
empty otherwise. -/
def field_reference (st : ExtractorState) (field : String) : String :=
  if field = "采购单位地址" then
    match (st.fields "采购单位名称").entries with
    | [] => ""
    | e :: _ => e.2
  else if field = "供应商地址" then
    match (st.fields "供应商名称").entries with
    | [] => ""
    | e :: _ => e.2
  else ""

/-- The body of `add_field`'s `for value in values` loop for one value:
for an occupied single-value store, score existing and candidate with the
precomputed reference and replace entry 0 only on a strictly greater
candidate score (taking a fresh order index); otherwise route through
`FieldValue.add` (which consumes a fresh order index even when it rejects,
as the Python call `field_store.add(value, self._next_order())` does). -/
def addValueStep (field : String) (reference : String) (st : ExtractorState)
    (value : String) : ExtractorState :=
  let fv := st.fields field
  if fv.entries ≠ [] && !fv.multi then
    let existing := (fv.entries.headD (0, "")).2
    if score_field_value field value reference > score_field_value field existing reference then
      { st with
        fields := updateField st.fields field
          { fv with entries := fv.entries.set 0 (st.counter + 1, pyStrip value) }
        counter := st.counter + 1 }
    else st
  else
    { st with
      fields := updateField st.fields field (fv.add value (st.counter + 1))
      counter := st.counter + 1 }

/-- The term `ProcurementExtractor.add_field(field, raw_value)`. -/
def add_field (st : ExtractorState) (field raw_value : String) : ExtractorState :=
  if !FIELD_ORDER.contains field || raw_value = "" then st
  else
    let values := field_values field raw_value
    let reference := field_reference st field
    values.foldl (addValueStep field reference) st

/-- A sequence of `add_field` calls (the store-facing trace of a document
run). -/
def applyCalls (st : ExtractorState) (calls : List (String × String)) : ExtractorState :=
  calls.foldl (fun st c => add_field st c.1 c.2) st

/-! ## Table matrix reconstruction (`_extract_table`, first half)

A physical cell carries its (already whitespace-normalized) text and its
`rowspan`/`colspan` attributes (defaulted to `1` by the caller, as
`int(cell.get("rowspan", 1))` does).  The source also fills a parallel
`cell_sources` grid recording the physical row of each placement; it is
written but never read ("用于调试"), so it is not modelled. -/

structure Cell where
  text : String
  rowspan : Nat
  colspan : Nat
deriving DecidableEq, Repr

/-- The growable grid: a list of rows of optional cell text. -/
abbrev TableMatrix := List (List (Option String))

/-- Append copies of `x` until the length is at least `n` (the source's
`while len(xs) <= bound: xs.append(x)` loops). -/
def padTo (l : List α) (n : Nat) (x : α) : List α :=
  l ++ List.replicate (n - l.length) x

/-- The matrix entry at `(r, c)`; positions outside the grid read as
`none`. -/
def getOpt (m : TableMatrix) (r c : Nat) : Option String :=
  (m.getD r []).getD c none

/-- The term `for c in range(colspan): matrix[target][col_idx + c] = cell_text`. -/
def fillCols (t : String) : List (Option String) → Nat → Nat → List (Option String)
  | row, _, 0 => row
  | row, c, Nat.succ k => fillCols t (row.set c (some t)) (c + 1) k

/-- One `r` iteration of the span-filling loop: grow the grid to contain
the target row, pad that row out to the spanned columns, fill them. -/
def fillOne (t : String) (colIdx colspan : Nat) (m : TableMatrix) (target : Nat) :
    TableMatrix :=
  let m := padTo m (target + 1) ([] : List (Option String))
  let row := m.getD target []
  let row := padTo row (colIdx + colspan) none
  let row := fillCols t row colIdx colspan
  m.set target row

/-- The term `for r in range(rowspan): ...`: place `cell` with its spans, anchored at
`(rowIdx, colIdx)`. -/
def fillSpan (m : TableMatrix) (rowIdx colIdx : Nat) (cell : Cell) : TableMatrix :=
  (List.range cell.rowspan).foldl
    (fun m r => fillOne cell.text colIdx cell.colspan m (rowIdx + r)) m

/-- The term `while col_idx < len(row) and row[col_idx] is not None: col_idx += 1`. -/
def skipFilledAux (row : List (Option String)) : Nat → Nat → Nat
  | 0, c => c
  | fuel + 1, c =>
    if c < row.length ∧ row.getD c none ≠ none then skipFilledAux row fuel (c + 1)
    else c

def skipFilled (row : List (Option String)) (c : Nat) : Nat :=
  skipFilledAux row row.length c

/-- One cell of a physical row: skip grid columns already filled by earlier
vertical spans, place the cell, advance the column cursor by `colspan`. -/
def placeCell (rowIdx : Nat) (st : TableMatrix × Nat) (cell : Cell) : TableMatrix × Nat :=
  let col := skipFilled (st.1.getD rowIdx []) st.2
  (fillSpan st.1 rowIdx col cell, col + cell.colspan)

/-- Process one physical row's cells left to right from column `0`. -/
def processRowCells (m : TableMatrix) (rowIdx : Nat) (cells : List Cell) : TableMatrix :=
  (cells.foldl (placeCell rowIdx) (m, 0)).1

/-- One `tr` of the matrix-construction loop: append a fresh row when the
grid is not yet tall enough, then place the row's cells. -/
def tableRowBuild (st : TableMatrix × Nat) (cells : List Cell) : TableMatrix × Nat :=
  let m := if st.1.length ≤ st.2 then st.1 ++ [[]] else st.1
  (processRowCells m st.2 cells, st.2 + 1)

/-- The matrix-construction half of `_extract_table`: walk the `tr`s top to
bottom. -/
def buildMatrix (trs : List (List Cell)) : TableMatrix :=
  (trs.foldl tableRowBuild ([], 0)).1

/-! ## Table row interpretation (`_extract_table`, second half) -/

/-- The first row index whose cell canonicalizes into the rank-header set. -/
def findRankIdx (row : List String) : Option Nat :=
  (List.range row.length).find? fun i =>
    TABLE_RANK_HEADERS.any fun x =>
      normalize_label_text x = normalize_label_text (row.getD i "")

/-- The ranking gate: with an active ranking column inside the row, reject
unless the rank cell canonicalizes into the accepted winner-marker set. -/
def rankRejects (ranking : Option Nat) (row : List String) : Bool :=
  match ranking with
  | some i =>
    i < row.length &&
      !(TABLE_RANK_ACCEPT.any fun x =>
        normalize_label_text x = normalize_label_text (row.getD i ""))
  | none => false

/-- The term `{idx: label_to_field(cell) for idx, cell ...}` restricted to resolved
entries, in ascending column order. -/
def candidateMap (row : List String) : List (Nat × String) :=
  (List.range row.length).filterMap fun i =>
    (label_to_field (row.getD i "")).map fun f => (i, f)

/-- Ordered-parts matcher for the `A.*B.*C`-shaped generic-subject regexes:
each part is a list of alternative literals; parts must occur in order,
each after the previous part's end. -/
def findPartAfter (alts : List (List Char)) : List Char → Option (List Char)
  | [] => none
  | c :: cs =>
    match alts.find? (fun a => a ≠ [] && isPrefixL a (c :: cs)) with
    | some a => some ((c :: cs).drop a.length)
    | none => findPartAfter alts cs

def containsSeq (l : List Char) : List (List (List Char)) → Bool
  | [] => true
  | part :: parts =>
    match findPartAfter part l with
    | some rest => containsSeq rest parts
    | none => false

def altsOf (ss : List String) : List (List Char) := ss.map (·.data)

/-- The five `generic_patterns` of the subject-matter special case
(`.*` turned into ordered-occurrence existence; the character classes
`[《<]` / `[》>]` are two-way alternatives). -/
def genericSubjectPatterns : List (List (List (List Char))) :=
  [ [ altsOf ["按"], altsOf ["《", "<"], altsOf ["招标"], altsOf ["文件"]
    , altsOf ["》", ">"], altsOf ["要求"], altsOf ["执行"] ]
  , [ altsOf ["按"], altsOf ["《", "<"], altsOf ["投标"], altsOf ["文件"]
    , altsOf ["》", ">"], altsOf ["执行"] ]
  , [altsOf ["详见"], altsOf ["文件"]]
  , [altsOf ["详见"], altsOf ["公告"]]
  , [altsOf ["见"], altsOf ["附件"]]
  ]

def isGenericSubject (s : String) : Bool :=
  genericSubjectPatterns.any (containsSeq s.data)

def PROJECT_TYPE_TOKENS_SHORT : List String :=
  ["系统", "设备", "服务", "工程", "项目", "采购", "建设"]

def PROJECT_TYPE_TOKENS_ALT : List String :=
  ["系统", "设备", "服务", "工程", "项目", "采购", "建设", "平台", "软件", "硬件"]

/-- The subject-matter special case of the header-mapped loop: replace a
generic/too-short cell by the best-scoring alternative cell of the same row
(columns not mapped by the header), when one scores above zero. -/
def subjectAltValue (row : List String) (idx : Nat) (header : List (Nat × String))
    (value : String) : String :=
  let isGeneric := isGenericSubject value
  if isGeneric ||
      (decide ((pyStrip value).length ≤ 4) &&
        !(PROJECT_TYPE_TOKENS_SHORT.any fun t => sContains value t)) then
    let best :=
      (List.range row.length).foldl
        (fun (best : Nat × Option String) altIdx =>
          if altIdx ≠ idx && !(header.any fun h => h.1 = altIdx) then
            let altValue := pyStrip (row.getD altIdx "")
            if altValue = "" || altValue = value then best
            else
              let score :=
                altValue.length +
                  (if PROJECT_TYPE_TOKENS_ALT.any (fun t => sContains altValue t) then 20
                   else 0)
              let score := if isGenericSubject altValue then 0 else score
              if score > best.1 then (score, some altValue) else best
          else best)
        (0, none)
    match best.2 with
    | some a => a
    | none => value
  else value

/-- The header-mapped half of a data row: forward each mapped column's cell
unless it itself resolves as a label, with the subject-matter
substitution. -/
def applyHeaderRow (es : ExtractorState) (header : List (Nat × String))
    (row : List String) : ExtractorState :=
  header.foldl
    (fun es hf =>
      if hf.1 < row.length then
        let value := row.getD hf.1 ""
        if (label_to_field value).isSome then es
        else
          let value := if hf.2 = "采购标的" then subjectAltValue row hf.1 header value else value
          add_field es hf.2 value
      else es)
    es

/-- The term `range(0, len(row) - 1, 2)`. -/
def pairIdxs (n : Nat) : List Nat :=
  (List.range n).filter fun i => i % 2 = 0 && i + 1 < n

/-- One `(cell[idx], cell[idx+1])` step of the pairwise scan, threading the
`last_name_field` purchaser/agency tracker. -/
def pairwiseStep (row : List String) (st : ExtractorState × Option String) (idx : Nat) :
    ExtractorState × Option String :=
  let labelText := row.getD idx ""
  let valueText := row.getD (idx + 1) ""
  match label_to_field labelText with
  | none => st
  | some field =>
    let labelHasAgency := sContains labelText "代理"
    let lastName :=
      if field = "采购单位名称" && !labelHasAgency then some "purchaser"
      else if labelHasAgency || sContains labelText "代理机构" then some "agency"
      else st.2
    if field = "采购单位地址" && (labelHasAgency || lastName = some "agency") then
      (st.1, lastName)
    else (add_field st.1 field valueText, lastName)

/-- The per-row loop state of the interpretation half of `_extract_table`. -/
structure TableLoopState where
  es : ExtractorState
  header : List (Nat × String)
  ranking : Option Nat
  lastName : Option String

/-- One matrix row of the interpretation loop: adopt a header row (with its
ranking column) once; afterwards gate data rows on the ranking column, run
the header-mapped extraction and the pairwise label/value scan. -/
def tableRowStep (st : TableLoopState) (rawRow : List (Option String)) : TableLoopState :=
  let row := rawRow.map (fun c => c.getD "")
  let cmap := candidateMap row
  if st.header = [] && cmap ≠ [] && (cmap.length ≥ 2 || row.length > 2) then
    { st with header := cmap, ranking := findRankIdx row }
  else if st.header ≠ [] && rankRejects st.ranking row then st
  else
    let es := if st.header ≠ [] then applyHeaderRow st.es st.header row else st.es
    if row.length ≥ 2 then
      if rankRejects st.ranking row then { st with es := es }
      else
        let p := (pairIdxs row.length).foldl (pairwiseStep row) (es, st.lastName)
        { st with es := p.1, lastName := p.2 }
    else { st with es := es }

/-- The interpretation half of `_extract_table`, over a built matrix. -/
def interpretMatrix (es : ExtractorState) (m : TableMatrix) : ExtractorState :=
  (m.foldl tableRowStep { es := es, header := [], ranking := none, lastName := none }).es

/-- The term `ProcurementExtractor._extract_table(table)`: reconstruct the matrix,
then interpret its rows. -/
def extract_table (es : ExtractorState) (trs : List (List Cell)) : ExtractorState :=
  interpretMatrix es (buildMatrix trs)

/-! ## Batch orchestration (`extract_directory`)

The per-document work (`build_record`: decode bytes, parse HTML, run the
extractor) happens behind a `try`; the embedding abstracts each document to
the outcome of that call — a record on success, an exception value on
failure — and models the loop over the sorted file list. -/

structure BatchStats where
  total : Nat
  success : Nat
  failed : Nat
deriving DecidableEq, Repr

/-- One iteration of the `extract_directory` loop: count the document, then
either append its record and bump `success`, or (when `build_record` raised)
bump `failed` and emit nothing for it. -/
def batchStep {ε ρ : Type} (st : List ρ × BatchStats) (doc : Except ε ρ) :
    List ρ × BatchStats :=
  let stats := { st.2 with total := st.2.total + 1 }
  match doc with
  | .error _ => (st.1, { stats with failed := stats.failed + 1 })
  | .ok r => (st.1 ++ [r], { stats with success := stats.success + 1 })

/-- The term `extract_directory(input_dir)`: fold the per-document outcomes in file
order, continuing past failures. -/
def extract_directory {ε ρ : Type} (docs : List (Except ε ρ)) : List ρ × BatchStats :=
  docs.foldl batchStep ([], { total := 0, success := 0, failed := 0 })

/-! ## Shared lemmas about the deduplicating accumulator -/

theorem insertIfAbsent_eq_if (l : List String) (x : String) :
    insertIfAbsent l x = if x ∈ l then l else l ++ [x] := by
  simp [insertIfAbsent, List.elem_iff]

theorem mem_foldl_insertIfAbsent (l acc : List String) (x : String) :
    x ∈ l.foldl insertIfAbsent acc ↔ x ∈ acc ∨ x ∈ l := by
  induction l generalizing acc with
  | nil => simp
  | cons a t ih =>
    rw [List.foldl_cons, insertIfAbsent_eq_if]
    by_cases ha : a ∈ acc
    · rw [if_pos ha, ih]
      simp only [List.mem_cons]
      constructor
      · rintro (hx | hx)
        · exact Or.inl hx
        · exact Or.inr (Or.inr hx)
      · rintro (hx | rfl | hx)
        · exact Or.inl hx
        · exact Or.inl ha
        · exact Or.inr hx
    · rw [if_neg ha, ih]
      simp [or_assoc]

theorem nodup_foldl_insertIfAbsent (l : List String) (acc : List String)
    (h : acc.Nodup) : (l.foldl insertIfAbsent acc).Nodup := by
  induction l generalizing acc with
  | nil => exact h
  | cons a t ih =>
    rw [List.foldl_cons, insertIfAbsent_eq_if]
    by_cases ha : a ∈ acc
    · rw [if_pos ha]; exact ih acc h
    · rw [if_neg ha]
      exact ih _ (by simp [List.nodup_append, h, ha])

theorem foldl_insertIfAbsent_sublist (l acc : List String) :
    ∃ t, l.foldl insertIfAbsent acc = acc ++ t ∧ t.Sublist l := by
  induction l generalizing acc with
  | nil => exact ⟨[], by simp, by simp⟩
  | cons a t ih =>
    rw [List.foldl_cons, insertIfAbsent_eq_if]
    by_cases ha : a ∈ acc
    · obtain ⟨u, hu, hs⟩ := ih acc
      exact ⟨u, by rw [if_pos ha]; exact hu, hs.cons a⟩
    · obtain ⟨u, hu, hs⟩ := ih (acc ++ [a])
      refine ⟨a :: u, ?_, hs.cons₂ a⟩
      rw [if_neg ha, hu, List.append_assoc]
      rfl

/-! ## Shared lemmas about the table matrix builder -/

theorem getD_set_ne {α : Type} (l : List α) (i j : Nat) (x d : α) (h : i ≠ j) :
    (l.set i x).getD j d = l.getD j d := by
  rw [List.getD_eq_getElem?_getD, List.getElem?_set_ne h, ← List.getD_eq_getElem?_getD]

theorem getD_set_self {α : Type} (l : List α) (i : Nat) (x d : α) (h : i < l.length) :
    (l.set i x).getD i d = x := by
  rw [List.getD_eq_getElem?_getD, List.getElem?_set_self h]
  rfl

theorem getD_append_left {α : Type} (l1 l2 : List α) (i : Nat) (d : α)
    (h : i < l1.length) : (l1 ++ l2).getD i d = l1.getD i d := by
  rw [List.getD_eq_getElem?_getD, List.getElem?_append_left h,
    ← List.getD_eq_getElem?_getD]

theorem getD_append_right {α : Type} (l1 l2 : List α) (i : Nat) (d : α)
    (h : l1.length ≤ i) : (l1 ++ l2).getD i d = l2.getD (i - l1.length) d := by
  rw [List.getD_eq_getElem?_getD, List.getElem?_append_right h,
    ← List.getD_eq_getElem?_getD]

theorem getD_replicate {α : Type} (k i : Nat) (x d : α) :
    (List.replicate k x).getD i d = if i < k then x else d := by
  rw [List.getD_eq_getElem?_getD, List.getElem?_replicate]
  split <;> rfl

theorem getOpt_append_empty_rows (m ms : TableMatrix)
    (hms : ∀ row ∈ ms, row = ([] : List (Option String))) (r c : Nat) :
    getOpt (m ++ ms) r c = getOpt m r c := by
  unfold getOpt
  rcases Nat.lt_or_ge r m.length with h | h
  · rw [getD_append_left _ _ _ _ h]
  · rw [getD_append_right _ _ _ _ h, List.getD_eq_default m _ h]
    cases hi : ms[r - m.length]? with
    | none =>
      rw [List.getD_eq_getElem?_getD ms, hi]
      rfl
    | some row =>
      rw [List.getD_eq_getElem?_getD ms, hi, hms row (List.getElem?_mem hi)]
      rfl

theorem padTo_length {α : Type} (l : List α) (n : Nat) (x : α) :
    (padTo l n x).length = max l.length n := by
  simp only [padTo, List.length_append, List.length_replicate]
  omega

theorem getOpt_padTo_rows (m : TableMatrix) (n r c : Nat) :
    getOpt (padTo m n ([] : List (Option String))) r c = getOpt m r c :=
  getOpt_append_empty_rows m _ (fun row hrow => (List.eq_of_mem_replicate hrow)) r c

theorem getD_padTo_none (row : List (Option String)) (n c : Nat) :
    (padTo row n none).getD c none = row.getD c none := by
  unfold padTo
  rcases Nat.lt_or_ge c row.length with h | h
  · rw [getD_append_left _ _ _ _ h]
  · rw [getD_append_right _ _ _ _ h, List.getD_eq_default row _ h, getD_replicate]
    split <;> rfl

theorem getD_fillCols_lt (t : String) (row : List (Option String)) (c0 k c : Nat)
    (h : c < c0) : (fillCols t row c0 k).getD c none = row.getD c none := by
  induction k generalizing row c0 with
  | zero => rfl
  | succ k ih =>
    show (fillCols t (row.set c0 (some t)) (c0 + 1) k).getD c none = _
    rw [ih _ _ (by omega), getD_set_ne _ _ _ _ _ (by omega)]

theorem getD_fillCols_ge (t : String) (row : List (Option String)) (c0 k c : Nat)
    (h : c0 + k ≤ c) : (fillCols t row c0 k).getD c none = row.getD c none := by
  induction k generalizing row c0 with
  | zero => rfl
  | succ k ih =>
    show (fillCols t (row.set c0 (some t)) (c0 + 1) k).getD c none = _
    rw [ih _ _ (by omega), getD_set_ne _ _ _ _ _ (by omega)]

theorem getD_fillCols_mem (t : String) (row : List (Option String)) (c0 k c : Nat)
    (h1 : c0 ≤ c) (h2 : c < c0 + k) (hlen : c0 + k ≤ row.length) :
    (fillCols t row c0 k).getD c none = some t := by
  induction k generalizing row c0 with
  | zero => omega
  | succ k ih =>
    show (fillCols t (row.set c0 (some t)) (c0 + 1) k).getD c none = some t
    rcases Nat.eq_or_lt_of_le h1 with heq | hlt
    · subst heq
      rw [getD_fillCols_lt t _ _ _ _ (by omega), getD_set_self _ _ _ _ (by omega)]
    · exact ih (row.set c0 (some t)) (c0 + 1) (by omega) (by omega)
        (by rw [List.length_set]; omega)

theorem getOpt_fillOne_ne (t : String) (colIdx colspan : Nat) (m : TableMatrix)
    (target r c : Nat) (h : r ≠ target ∨ c < colIdx) :
    getOpt (fillOne t colIdx colspan m target) r c = getOpt m r c := by
  unfold fillOne
  dsimp only
  rcases h with h | h
  · show getOpt ((padTo m (target + 1) []).set target _) r c = _
    unfold getOpt
    rw [getD_set_ne _ _ _ _ _ (Ne.symm h)]
    exact getOpt_padTo_rows m (target + 1) r c
  · rcases eq_or_ne r target with rfl | hne
    · have hlt : r < (padTo m (r + 1) ([] : List (Option String))).length := by
        rw [padTo_length]
        omega
      show getOpt ((padTo m (r + 1) []).set r _) r c = _
      unfold getOpt
      rw [getD_set_self _ _ _ _ hlt, getD_fillCols_lt t _ _ _ _ h, getD_padTo_none]
      exact getOpt_padTo_rows m (r + 1) r c
    · show getOpt ((padTo m (target + 1) []).set target _) r c = _
      unfold getOpt
      rw [getD_set_ne _ _ _ _ _ (Ne.symm hne)]
      exact getOpt_padTo_rows m (target + 1) r c

theorem getOpt_fillSpan_of (m : TableMatrix) (rowIdx colIdx : Nat) (cell : Cell)
    (r c : Nat) (h : r < rowIdx ∨ c < colIdx) :
    getOpt (fillSpan m rowIdx colIdx cell) r c = getOpt m r c := by
  unfold fillSpan
  generalize List.range cell.rowspan = is
  induction is generalizing m with
  | nil => rfl
  | cons i is ih =>
    rw [List.foldl_cons, ih]
    apply getOpt_fillOne_ne
    rcases h with h | h
    · exact Or.inl (by omega)
    · exact Or.inr h

theorem skipFilledAux_ge (row : List (Option String)) (fuel c : Nat) :
    c ≤ skipFilledAux row fuel c := by
  induction fuel generalizing c with
  | zero => exact Nat.le_refl c
  | succ fuel ih =>
    rw [skipFilledAux]
    split
    · exact Nat.le_trans (by omega) (ih (c + 1))
    · exact Nat.le_refl c

theorem skipFilled_ge (row : List (Option String)) (c : Nat) :
    c ≤ skipFilled row c :=
  skipFilledAux_ge row row.length c

theorem skipFilledAux_reach (row : List (Option String)) (k : Nat)
    (hfill : ∀ j, j < k → row.getD j none ≠ none) (fuel : Nat) :
    ∀ c, c ≤ k → k - c ≤ fuel → k ≤ skipFilledAux row fuel c := by
  induction fuel with
  | zero =>
    intro c h1 h2
    have hck : c = k := by omega
    subst hck
    exact skipFilledAux_ge row 0 c
  | succ fuel ih =>
    intro c h1 h2
    rcases Nat.eq_or_lt_of_le h1 with heq | hlt
    · subst heq
      exact skipFilledAux_ge row (fuel + 1) c
    · rw [skipFilledAux]
      have hc : row.getD c none ≠ none := hfill c hlt
      have hlen : c < row.length := by
        by_contra hn
        exact hc (List.getD_eq_default _ _ (by omega))
      rw [if_pos ⟨hlen, hc⟩]
      exact ih (c + 1) (by omega) (by omega)

theorem skipFilled_ge_two (row : List (Option String))
    (h0 : row.getD 0 none ≠ none) (h1 : row.getD 1 none ≠ none) (c : Nat) :
    2 ≤ skipFilled row c := by
  rcases Nat.lt_or_ge c 2 with h | h
  · have hlen : 1 < row.length := by
      by_contra hn
      exact h1 (List.getD_eq_default _ _ (by omega))
    refine skipFilledAux_reach row 2 (fun j hj => ?_) row.length c (by omega) (by omega)
    interval_cases j
    · exact h0
    · exact h1
  · exact Nat.le_trans h (skipFilled_ge row c)

/-- The four grid positions of the C4 test: the spanning cell's text sits at
`(0,0)`, `(0,1)`, `(1,0)` and `(1,1)`. -/
def holdsP (t : String) (m : TableMatrix) : Prop :=
  getOpt m 0 0 = some t ∧ getOpt m 0 1 = some t ∧
  getOpt m 1 0 = some t ∧ getOpt m 1 1 = some t

theorem holdsP_fillSpan (t : String) (m : TableMatrix) (rowIdx colIdx : Nat)
    (cell : Cell) (hc : 2 ≤ rowIdx ∨ 2 ≤ colIdx) (h : holdsP t m) :
    holdsP t (fillSpan m rowIdx colIdx cell) := by
  obtain ⟨h00, h01, h10, h11⟩ := h
  refine ⟨?_, ?_, ?_, ?_⟩ <;>
    · rw [getOpt_fillSpan_of]
      · assumption
      · rcases hc with hc | hc
        · exact Or.inl (by omega)
        · exact Or.inr (by omega)

theorem holdsP_placeCell_fold (t : String) (rowIdx : Nat) (cells : List Cell) :
    ∀ (m : TableMatrix) (col : Nat),
      holdsP t m → (2 ≤ rowIdx ∨ 2 ≤ col ∨ rowIdx = 1) →
      holdsP t ((cells.foldl (placeCell rowIdx) (m, col)).1) := by
  induction cells with
  | nil => intro m col h _; exact h
  | cons cell cellsTl ih =>
    intro m col h hcase
    rw [List.foldl_cons]
    have hkey : 2 ≤ rowIdx ∨ 2 ≤ skipFilled (m.getD rowIdx []) col := by
      rcases hcase with h2 | h2 | h2
      · exact Or.inl h2
      · exact Or.inr (Nat.le_trans h2 (skipFilled_ge _ _))
      · subst h2
        refine Or.inr (skipFilled_ge_two _ ?_ ?_ _)
        · have h10 := h.2.2.1
          unfold getOpt at h10
          rw [h10]
          simp
        · have h11 := h.2.2.2
          unfold getOpt at h11
          rw [h11]
          simp
    refine ih _ _ ?_ ?_
    · exact holdsP_fillSpan t m rowIdx _ cell hkey h
    · rcases hcase with h2 | h2 | h2
      · exact Or.inl h2
      · refine Or.inr (Or.inl ?_)
        have hmono := skipFilled_ge (m.getD rowIdx []) col
        show 2 ≤ skipFilled (m.getD rowIdx []) col + cell.colspan
        omega
      · exact Or.inr (Or.inr h2)

theorem holdsP_tableRowBuild_fold (t : String) (trs : List (List Cell)) :
    ∀ (m : TableMatrix) (idx : Nat),
      holdsP t m → 1 ≤ idx →
      holdsP t ((trs.foldl tableRowBuild (m, idx)).1) := by
  induction trs with
  | nil => intro m idx h _; exact h
  | cons row trsTl ih =>
    intro m idx h hidx
    rw [List.foldl_cons]
    refine ih _ _ ?_ (by omega)
    show holdsP t (processRowCells (if m.length ≤ idx then m ++ [[]] else m) idx row)
    have hm' : holdsP t (if m.length ≤ idx then m ++ [[]] else m) := by
      split
      · obtain ⟨h00, h01, h10, h11⟩ := h
        refine ⟨?_, ?_, ?_, ?_⟩ <;>
          · rw [getOpt_append_empty_rows _ _ (by simp)]
            assumption
      · exact h
    unfold processRowCells
    apply holdsP_placeCell_fold t idx row _ 0 hm'
    rcases Nat.eq_or_lt_of_le hidx with heq | hlt
    · exact Or.inr (Or.inr heq.symm)
    · exact Or.inl hlt

/-! ## Shared lemmas: every matrix entry is a cell text or `none` -/

/-- All matrix entries are `none` or drawn from the text set `T`. -/
def entriesFrom (T : List String) (m : TableMatrix) : Prop :=
  ∀ r c, getOpt m r c = none ∨ ∃ s ∈ T, getOpt m r c = some s

theorem entriesFrom_fillOne (T : List String) (t : String) (ht : t ∈ T)
    (colIdx colspan : Nat) (m : TableMatrix) (target : Nat)
    (h : entriesFrom T m) :
    entriesFrom T (fillOne t colIdx colspan m target) := by
  intro r c
  rcases eq_or_ne r target with rfl | hne
  · rcases Nat.lt_or_ge c colIdx with hc | hc
    · rw [getOpt_fillOne_ne t colIdx colspan m r r c (Or.inr hc)]
      exact h r c
    · have hlt : r < (padTo m (r + 1) ([] : List (Option String))).length := by
        rw [padTo_length]
        omega
      rcases Nat.lt_or_ge c (colIdx + colspan) with hc2 | hc2
      · right
        refine ⟨t, ht, ?_⟩
        show getOpt ((padTo m (r + 1) []).set r _) r c = some t
        unfold getOpt
        rw [getD_set_self _ _ _ _ hlt]
        exact getD_fillCols_mem t _ _ _ _ hc hc2 (by rw [padTo_length]; omega)
      · have hval : getOpt (fillOne t colIdx colspan m r) r c = getOpt m r c := by
          show getOpt ((padTo m (r + 1) []).set r _) r c = _
          unfold getOpt
          rw [getD_set_self _ _ _ _ hlt, getD_fillCols_ge t _ _ _ _ hc2,
            getD_padTo_none]
          exact getOpt_padTo_rows m (r + 1) r c
        rw [hval]
        exact h r c
  · rw [getOpt_fillOne_ne t colIdx colspan m target r c (Or.inl hne)]
    exact h r c

theorem entriesFrom_fillSpan (T : List String) (m : TableMatrix)
    (rowIdx colIdx : Nat) (cell : Cell) (ht : cell.text ∈ T)
    (h : entriesFrom T m) :
    entriesFrom T (fillSpan m rowIdx colIdx cell) := by
  unfold fillSpan
  generalize List.range cell.rowspan = is
  induction is generalizing m with
  | nil => exact h
  | cons i is ih =>
    rw [List.foldl_cons]
    exact ih _ (entriesFrom_fillOne T cell.text ht colIdx cell.colspan m (rowIdx + i) h)

theorem entriesFrom_placeCell_fold (T : List String) (rowIdx : Nat)
    (cells : List Cell) :
    ∀ (m : TableMatrix) (col : Nat),
      (∀ cell ∈ cells, cell.text ∈ T) → entriesFrom T m →
      entriesFrom T ((cells.foldl (placeCell rowIdx) (m, col)).1) := by
  induction cells with
  | nil => intro m col _ h; exact h
  | cons cell cellsTl ih =>
    intro m col hT h
    rw [List.foldl_cons]
    refine ih _ _ (fun c hc => hT c (List.mem_cons_of_mem _ hc)) ?_
    exact entriesFrom_fillSpan T m rowIdx _ cell (hT cell (List.mem_cons_self _ _)) h

theorem entriesFrom_tableRowBuild_fold (T : List String) (trs : List (List Cell)) :
    ∀ (m : TableMatrix) (idx : Nat),
      (∀ row ∈ trs, ∀ cell ∈ row, cell.text ∈ T) → entriesFrom T m →
      entriesFrom T ((trs.foldl tableRowBuild (m, idx)).1) := by
  induction trs with
  | nil => intro m idx _ h; exact h
  | cons row trsTl ih =>
    intro m idx hT h
    rw [List.foldl_cons]
    refine ih _ _ (fun rw2 hrw => hT rw2 (List.mem_cons_of_mem _ hrw)) ?_
    show entriesFrom T (processRowCells (if m.length ≤ idx then m ++ [[]] else m) idx row)
    have hm' : entriesFrom T (if m.length ≤ idx then m ++ [[]] else m) := by
      split
      · intro r c
        rw [getOpt_append_empty_rows _ _ (by simp)]
        exact h r c
      · exact h
    unfold processRowCells
    exact entriesFrom_placeCell_fold T idx row _ 0
      (hT row (List.mem_cons_self _ _)) hm'

/-! # Claims -/

/-! ## C2 — subject-matter vs project-name scoring bonuses -/

/-- C2, counterexample:  The claim asserts the +50 `编号` bonus and the
+30 result-suffix bonus are applied when scoring the subject-matter field
(采购标的).  In the code those bonuses are applied to the project-name field
(项目名称) only: at the concrete values below, scoring 采购标的 yields the
bare length (5 and 7), not the claimed 55 and 37 — which is exactly what
scoring 项目名称 yields. -/
theorem C2_counterexample :
    score_field_value "采购标的" "abc编号" "" = 5 ∧
    score_field_value "采购标的" "abc中标公告" "" = 7 ∧
    score_field_value "项目名称" "abc编号" "" = 55 ∧
    score_field_value "项目名称" "abc中标公告" "" = 37 := by
  decide

/-- C2, amended:  When scoring the project-name field (项目名称), the
scorer adds +50 if the value contains `项目编号` or `编号` and +30 if it
contains a result-type suffix matching 中标/成交/结果公告; when scoring the
subject-matter field (采购标的) it applies no such bonuses and subtracts 100
if the value looks like a version/spec string; both fields share the −20
placeholder penalty on a base score equal to the trimmed value's length. -/
theorem C2_score_bonus_fields :
    (∀ v : String,
      score_field_value "采购标的" v "" =
        if pyStrip v = "" then 0
        else ((pyStrip v).length : Int) -
          (if placeholderHit (pyStrip v) then 20 else 0) -
          (if versionLike (pyStrip v) then 100 else 0)) ∧
    (∀ v : String,
      score_field_value "项目名称" v "" =
        if pyStrip v = "" then 0
        else ((pyStrip v).length : Int) +
          (if sContains (pyStrip v) "项目编号" || sContains (pyStrip v) "编号" then 50
           else 0) +
          (if resultNoticeHit (pyStrip v) then 30 else 0) -
          (if placeholderHit (pyStrip v) then 20 else 0)) := by
  constructor
  · intro v
    by_cases hv : v = ""
    · subst hv
      simp [score_field_value, pyStrip, stripBothWith, dropTrailing]
    · by_cases hc : pyStrip v = ""
      · simp [score_field_value, hv, hc]
      · by_cases hp : placeholderHit (pyStrip v) <;>
          by_cases hw : versionLike (pyStrip v) <;>
          simp [score_field_value, hv, hc, hp, hw]
  · intro v
    by_cases hv : v = ""
    · subst hv
      simp [score_field_value, pyStrip, stripBothWith, dropTrailing]
    · by_cases hc : pyStrip v = ""
      · simp [score_field_value, hv, hc]
      · by_cases hp : placeholderHit (pyStrip v) <;>
          by_cases hb : (sContains (pyStrip v) "项目编号" || sContains (pyStrip v) "编号") = true <;>
          by_cases hr : resultNoticeHit (pyStrip v) <;>
          simp [score_field_value, hv, hc, hp, hb, hr]

/-! ## C3 — the label-substring rule and address disambiguation -/

/-- C3, counterexample:  The claim asserts a canonicalized label that is
a proper substring of a canonicalized alias contributes a match only for
address-type fields.  But the bare label `项目` — which is an alias of no
field (second conjunct), and is a proper substring of the alias `项目名称` —
resolves to the non-address field 项目名称 through exactly that substring
rule. -/
theorem C3_counterexample :
    label_to_field "项目" = some "项目名称" ∧
    (FIELD_KEYWORDS.all fun fa =>
      fa.2.all fun al => normalize_label_text al != "项目") = true := by
  decide

/-- C3, amended:  A canonicalized label that is a proper substring of a
canonicalized alias contributes a match score of `len(label)` for *every*
field; only for the two address-type fields is the contribution additionally
conditioned on the original (uncanonicalized) label containing the required
disambiguating prefix token (`采购`/`采购人` for the purchasing-unit
address, `供应商`/`中标供应商`/`成交供应商` for the supplier address); in
particular, resolving the bare label `地址` yields no field. -/
theorem C3_substring_rule :
    (∀ field label normalized aliasNorm : String,
        aliasNorm ≠ "" → normalized ≠ aliasNorm →
        sContains normalized aliasNorm = false →
        sContains aliasNorm normalized = true →
        field ≠ "采购单位地址" → field ≠ "供应商地址" →
        alias_match_score field label normalized aliasNorm = some normalized.length) ∧
    (∀ label normalized aliasNorm : String,
        aliasNorm ≠ "" → normalized ≠ aliasNorm →
        sContains normalized aliasNorm = false →
        sContains aliasNorm normalized = true →
        alias_match_score "采购单位地址" label normalized aliasNorm =
          if sContains label "采购" || sContains label "采购人" then
            some normalized.length
          else none) ∧
    (∀ label normalized aliasNorm : String,
        aliasNorm ≠ "" → normalized ≠ aliasNorm →
        sContains normalized aliasNorm = false →
        sContains aliasNorm normalized = true →
        alias_match_score "供应商地址" label normalized aliasNorm =
          if sContains label "供应商" || sContains label "中标供应商" ||
              sContains label "成交供应商" then
            some normalized.length
          else none) ∧
    label_to_field "地址" = none := by
  refine ⟨?_, ?_, ?_, by decide⟩
  · intro field label normalized aliasNorm h1 h2 h3 h4 h5 h6
    simp [alias_match_score, h1, h2, h3, h4, addressPrefixOk, h5, h6]
  · intro label normalized aliasNorm h1 h2 h3 h4
    simp only [alias_match_score, h1, h2, h3, h4, if_neg h1, if_neg h2,
      Bool.false_eq_true, if_false, if_true, addressPrefixOk, if_pos rfl]
    split_ifs <;> simp_all [addressPrefixOk]
  · intro label normalized aliasNorm h1 h2 h3 h4
    simp only [alias_match_score, h1, h2, h3, h4] at *
    split_ifs <;> simp_all [addressPrefixOk]

/-- C3, witness:  Concrete instances of the three quantified conjuncts:
the non-address substring match for `项目` ⊂ `项目名称`, the refused bare
`地址` against the purchasing-unit-address alias, and the accepted
prefixed supplier-address label. -/
theorem C3_substring_rule_witness :
    alias_match_score "项目名称" "项目" "项目" "项目名称" = some 2 ∧
    alias_match_score "采购单位地址" "地址" "地址" "采购单位地址" = none ∧
    alias_match_score "供应商地址" "中标供应商地" "中标供应商地" "中标供应商地址" =
      some 6 := by
  refine ⟨C3_substring_rule.1 "项目名称" "项目" "项目" "项目名称"
      (by decide) (by decide) (by decide) (by decide) (by decide) (by decide), ?_, ?_⟩
  · rw [C3_substring_rule.2.1 "地址" "地址" "采购单位地址"
      (by decide) (by decide) (by decide) (by decide)]
    decide
  · rw [C3_substring_rule.2.2.1 "中标供应商地" "中标供应商地" "中标供应商地址"
      (by decide) (by decide) (by decide) (by decide)]
    decide

/-! ## C7 — amount normalization -/

/-- C7:  `"中标金额：195.5万元"` normalizes to `["1955000.00"]` and
`"1,980,000元"` to `["1980000.00"]`; in general the result is duplicate-free,
is a sublist of the rendered matches in match order (the ordered
de-duplication of all matches), contains exactly the rendered matches, and
every rendered match is the two-fractional-digit fixed-point rendering of a
scanned number, multiplied by 10,000 exactly when its unit is `万元`. -/
theorem C7_amount_normalization :
    normalize_amounts "中标金额：195.5万元" = ["1955000.00"] ∧
    normalize_amounts "1,980,000元" = ["1980000.00"] ∧
    (∀ raw : String, (normalize_amounts raw).Nodup) ∧
    (∀ raw : String, (normalize_amounts raw).Sublist (renderedAmounts raw)) ∧
    (∀ raw s, s ∈ normalize_amounts raw ↔ s ∈ renderedAmounts raw) ∧
    (∀ raw s, s ∈ renderedAmounts raw →
      ∃ num unit n k,
        (num, unit) ∈ amountScan (amountText raw).data ∧
        parseDecimal num = some (n, k) ∧
        s = formatAmount2 (if unit = some "万元" then n * 10000 else n) k) := by
  refine ⟨by decide, by decide, ?_, ?_, ?_, ?_⟩
  · intro raw
    unfold normalize_amounts
    split
    · exact List.nodup_nil
    · exact nodup_foldl_insertIfAbsent _ _ List.nodup_nil
  · intro raw
    unfold normalize_amounts
    split
    · rename_i hr
      subst hr
      exact List.nil_sublist _
    · obtain ⟨t, ht, hs⟩ := foldl_insertIfAbsent_sublist (renderedAmounts raw) []
      rw [ht]
      simpa using hs
  · intro raw s
    unfold normalize_amounts
    split
    · rename_i hr
      subst hr
      have : renderedAmounts "" = [] := by decide
      simp [this]
    · rw [mem_foldl_insertIfAbsent]
      simp
  · intro raw s hs
    unfold renderedAmounts at hs
    obtain ⟨⟨num, unit⟩, hmem, hf⟩ := List.mem_filterMap.mp hs
    obtain ⟨⟨n, k⟩, hp, hfmt⟩ := Option.map_eq_some'.mp hf
    exact ⟨num, unit, n, k, hmem, hp, hfmt.symm⟩

/-- C7, witness:  The membership hypothesis of the last conjunct
discharged at the second concrete input. -/
theorem C7_amount_normalization_witness :
    ∃ num unit n k,
      (num, unit) ∈ amountScan (amountText "1,980,000元").data ∧
      parseDecimal num = some (n, k) ∧
      "1980000.00" = formatAmount2 (if unit = some "万元" then n * 10000 else n) k :=
  C7_amount_normalization.2.2.2.2.2 "1,980,000元" "1980000.00" (by decide)

/-! ## C8 — date normalization and parse-failure behavior -/

/-- C8:  `"发布时间:2021/5/4"` normalizes to the zero-padded
`"2021年05月04日"`; and for any raw value on which the date normalizer
produces no value, `add_field` on the announcement-date field leaves the
whole extractor state unchanged (no entry, no counter bump, no error) — in
particular for the unparseable `"待定"`. -/
theorem C8_date_normalization :
    normalize_date_text "发布时间:2021/5/4" = some "2021年05月04日" ∧
    normalize_date_text "待定" = none ∧
    (∀ (st : ExtractorState) (raw : String),
      normalize_date_text raw = none → add_field st "公告时间" raw = st) := by
  refine ⟨by decide, by decide, ?_⟩
  intro st raw hraw
  unfold add_field
  split
  · rfl
  · have hv : field_values "公告时间" raw = [] := by
      unfold field_values
      rw [if_pos rfl, hraw]
    rw [hv]
    rfl

/-- C8, witness:  The parse-failure clause applied at the unparseable
concrete input, from the freshly initialized state. -/
theorem C8_date_normalization_witness :
    add_field initState "公告时间" "待定" = initState :=
  C8_date_normalization.2.2 initState "待定" (by decide)

/-! ## C9 — per-document failure isolation in batch extraction -/

theorem batch_foldl {ε ρ : Type} (docs : List (Except ε ρ)) (acc : List ρ × BatchStats) :
    docs.foldl batchStep acc =
      (acc.1 ++ docs.filterMap Except.toOption,
       { total := acc.2.total + docs.length
       , success := acc.2.success + docs.countP (fun d => d.toOption.isSome)
       , failed := acc.2.failed + docs.countP (fun d => d.toOption.isNone) }) := by
  induction docs generalizing acc with
  | nil =>
    obtain ⟨recs, ⟨t, su, f⟩⟩ := acc
    simp
  | cons d t ih =>
    rw [List.foldl_cons, ih]
    cases d with
    | ok r =>
      simp only [batchStep, List.countP_cons, List.length_cons]
      refine Prod.ext ?_ ?_
      · simp [Except.toOption, List.filterMap_cons]
      · simp [Except.toOption, Option.isSome, Option.isNone]
        omega
    | error e =>
      simp only [batchStep, List.countP_cons, List.length_cons]
      refine Prod.ext ?_ ?_
      · simp [Except.toOption, List.filterMap_cons]
      · simp [Except.toOption, Option.isSome, Option.isNone]
        omega

/-- C9:  Batch extraction isolates per-document failures: every document
is counted in `total`; each failed document increments `failed`, emits no
record at all, and does not stop the fold (later successes still land in the
output, in order); `success` counts exactly the emitted records. -/
theorem C9_failure_isolation {ε ρ : Type} (docs : List (Except ε ρ)) :
    extract_directory docs =
      (docs.filterMap Except.toOption,
       { total := docs.length
       , success := docs.countP (fun d => d.toOption.isSome)
       , failed := docs.countP (fun d => d.toOption.isNone) }) := by
  unfold extract_directory
  rw [batch_foldl]
  simp

/-! ## C1 / C10 — store invariants -/

/-- The store invariant maintained by `add_field` from the initial state:
every store is single-valued (this schema's multi-value field set is empty)
and holds at most one entry. -/
def storesOk (st : ExtractorState) : Prop :=
  ∀ f, (st.fields f).multi = false ∧ ((st.fields f).entries).length ≤ 1

theorem MULTI_VALUE_FIELDS_eq_nil : MULTI_VALUE_FIELDS = [] := by decide

theorem initState_storesOk : storesOk initState := by
  intro f
  refine ⟨?_, ?_⟩
  · show MULTI_VALUE_FIELDS.contains f = false
    rw [MULTI_VALUE_FIELDS_eq_nil]
    rfl
  · show ([] : List (Nat × String)).length ≤ 1
    simp

theorem FieldValue.add_multi (fv : FieldValue) (value : String) (order : Nat) :
    (fv.add value order).multi = fv.multi := by
  unfold FieldValue.add
  dsimp only
  split_ifs <;> rfl

theorem FieldValue.add_length (fv : FieldValue) (value : String) (order : Nat)
    (hm : fv.multi = false) (hl : fv.entries.length ≤ 1) :
    ((fv.add value order).entries).length ≤ 1 := by
  unfold FieldValue.add
  dsimp only
  split_ifs with h1 h2 h3 h4
  · exact hl
  · exact hl
  · exact hl
  · exact hl
  · have he : fv.entries = [] := by
      by_contra hne
      exact h3 (by simp [hne, hm])
    simp [he]

theorem storesOk_update (st : ExtractorState) (field : String) (fv' : FieldValue)
    (c' : Nat) (h : storesOk st) (hm : fv'.multi = false)
    (hl : fv'.entries.length ≤ 1) :
    storesOk ⟨updateField st.fields field fv', c'⟩ := by
  intro g
  simp only [updateField]
  split
  · exact ⟨hm, hl⟩
  · exact h g

theorem addValueStep_storesOk (field reference value : String) (st : ExtractorState)
    (h : storesOk st) : storesOk (addValueStep field reference st value) := by
  unfold addValueStep
  dsimp only
  split
  · split
    · refine storesOk_update st field _ _ h ?_ ?_
      · exact (h field).1
      · simpa using (h field).2
    · exact h
  · refine storesOk_update st field _ _ h ?_ ?_
    · rw [FieldValue.add_multi]
      exact (h field).1
    · exact FieldValue.add_length _ _ _ (h field).1 (h field).2

theorem foldl_addValueStep_storesOk (field reference : String) (values : List String)
    (st : ExtractorState) (h : storesOk st) :
    storesOk (values.foldl (addValueStep field reference) st) := by
  induction values generalizing st with
  | nil => exact h
  | cons v t ih => exact ih _ (addValueStep_storesOk field reference v st h)

theorem add_field_storesOk (st : ExtractorState) (f raw : String)
    (h : storesOk st) : storesOk (add_field st f raw) := by
  unfold add_field
  split
  · exact h
  · exact foldl_addValueStep_storesOk _ _ _ _ h

theorem applyCalls_storesOk (calls : List (String × String)) (st : ExtractorState)
    (h : storesOk st) : storesOk (applyCalls st calls) := by
  induction calls generalizing st with
  | nil => exact h
  | cons c t ih => exact ih _ (add_field_storesOk _ _ _ h)

/-! ## C1 — single-value replacement semantics -/

/-- C1:  (1) From a fresh extractor state, after any sequence of
`add_field` calls every store holds at most one entry.  (2) For a store
already holding one entry `(o, t)` of a single-value field, an `add_field`
call whose normalizer produces exactly one candidate `v` either leaves the
whole state — stored entry, order index and counter — unchanged (when the
candidate's score, computed against the resolved related-entity reference,
is not strictly greater), or replaces the entry with `v` under a fresh
order index. -/
theorem C1_single_value_store :
    (∀ (calls : List (String × String)) (f : String),
      (((applyCalls initState calls).fields f).entries).length ≤ 1) ∧
    (∀ (st : ExtractorState) (f raw v : String) (o : Nat) (t : String),
      FIELD_ORDER.contains f = true → raw ≠ "" →
      (st.fields f).multi = false →
      (st.fields f).entries = [(o, t)] →
      field_values f raw = [v] →
      ((score_field_value f v (field_reference st f) ≤
          score_field_value f t (field_reference st f) →
        add_field st f raw = st) ∧
       (score_field_value f t (field_reference st f) <
          score_field_value f v (field_reference st f) →
        add_field st f raw =
          { fields := updateField st.fields f
              { multi := false, entries := [(st.counter + 1, pyStrip v)] }
          , counter := st.counter + 1 }))) := by
  constructor
  · intro calls f
    exact (applyCalls_storesOk calls initState initState_storesOk f).2
  · intro st f raw v o t hf hraw hm he hv
    have hfm : f ∈ FIELD_ORDER := by
      rw [← List.elem_iff]
      exact hf
    have hstep : add_field st f raw = addValueStep f (field_reference st f) st v := by
      unfold add_field
      rw [if_neg (by simp [hfm, hraw]), hv]
      rfl
    constructor
    · intro hle
      rw [hstep]
      unfold addValueStep
      rw [if_pos (by simp [he, hm]), if_neg (by simp [he]; omega)]
    · intro hgt
      rw [hstep]
      unfold addValueStep
      rw [if_pos (by simp [he, hm]), if_pos (by simp [he]; omega)]
      have : st.fields f = { multi := false, entries := [(o, t)] } := by
        cases hfv : st.fields f with
        | mk m e =>
          rw [hfv] at hm he
          simp only at hm he
          rw [hm, he]
      rw [this]
      rfl

def C1_wit_st : ExtractorState := add_field initState "供应商名称" "甲公司"

/-- C1, witness:  From a state holding `(1, "甲公司")` for the supplier
name, the lower-scoring candidate `乙` is rejected and the state is
unchanged. -/
theorem C1_single_value_store_witness :
    add_field C1_wit_st "供应商名称" "乙" = C1_wit_st :=
  (C1_single_value_store.2 C1_wit_st "供应商名称" "乙" "乙" 1 "甲公司"
    (by decide) (by decide) (by decide) (by decide) (by decide)).1 (by decide)

/-! ## C10 — all fields single-valued; output never joins -/

/-- C10:  This schema declares every field single-valued: the
multi-value set is empty and every store of the initial state has
`multi = false`; the flag stays `false` through any sequence of `add_field`
calls, and the final `get()` of every store is exactly the text of its
single stored entry — the head entry's text, or `""` when no entry exists —
never a `"|"`-join. -/
theorem C10_single_valued_output :
    MULTI_VALUE_FIELDS = [] ∧
    (∀ f, (initState.fields f).multi = false) ∧
    (∀ (calls : List (String × String)) (f : String),
      ((applyCalls initState calls).fields f).multi = false) ∧
    (∀ (calls : List (String × String)) (f : String),
      ((applyCalls initState calls).fields f).get =
        ((((applyCalls initState calls).fields f).entries.headD (0, "")).2)) := by
  refine ⟨MULTI_VALUE_FIELDS_eq_nil, fun f => (initState_storesOk f).1, ?_, ?_⟩
  · intro calls f
    exact (applyCalls_storesOk calls initState initState_storesOk f).1
  · intro calls f
    have hm := (applyCalls_storesOk calls initState initState_storesOk f).1
    unfold FieldValue.get
    rw [hm]
    split
    · rename_i hnil
      rw [hnil]
      rfl
    · simp

/-! ## C4 — spanning-cell replication in the reconstructed matrix -/

/-- C4:  For every table whose row 0 starts with a cell carrying
`rowspan=2, colspan=2` — whatever the remaining cells of row 0 and the
remaining rows are — the reconstructed matrix holds that cell's text at the
grid positions `(0,0)`, `(0,1)`, `(1,0)` and `(1,1)`. -/
theorem C4_span_replication (t : String) (r0rest : List Cell)
    (rest : List (List Cell)) :
    getOpt (buildMatrix (({ text := t, rowspan := 2, colspan := 2 } :: r0rest) :: rest))
        0 0 = some t ∧
    getOpt (buildMatrix (({ text := t, rowspan := 2, colspan := 2 } :: r0rest) :: rest))
        0 1 = some t ∧
    getOpt (buildMatrix (({ text := t, rowspan := 2, colspan := 2 } :: r0rest) :: rest))
        1 0 = some t ∧
    getOpt (buildMatrix (({ text := t, rowspan := 2, colspan := 2 } :: r0rest) :: rest))
        1 1 = some t := by
  have hM : holdsP t [[some t, some t], [some t, some t]] := ⟨rfl, rfl, rfl, rfl⟩
  have h1 := holdsP_placeCell_fold t 0 r0rest [[some t, some t], [some t, some t]] 2
    hM (Or.inr (Or.inl (Nat.le_refl 2)))
  have h2 := holdsP_tableRowBuild_fold t rest
    ((r0rest.foldl (placeCell 0) ([[some t, some t], [some t, some t]], 2)).1) 1
    h1 (Nat.le_refl 1)
  have hb : buildMatrix
      (({ text := t, rowspan := 2, colspan := 2 } :: r0rest) :: rest) =
      (rest.foldl tableRowBuild
        ((r0rest.foldl (placeCell 0)
          ([[some t, some t], [some t, some t]], 2)).1, 1)).1 := rfl
  rw [hb]
  exact h2

/-! ## C5 — the grid is not rectangular; entries are cell texts or blanks -/

/-- C5, counterexample:  The claim asserts every produced matrix is a
fully populated rectangular grid.  For the two-row table below the builder
produces rows of lengths 2 and 1: rows are never padded to a common width,
so the grid is not rectangular. -/
theorem C5_counterexample :
    buildMatrix [[⟨"a", 1, 1⟩, ⟨"b", 1, 1⟩], [⟨"c", 1, 1⟩]] =
      [[some "a", some "b"], [some "c"]] ∧
    ((buildMatrix [[⟨"a", 1, 1⟩, ⟨"b", 1, 1⟩], [⟨"c", 1, 1⟩]]).getD 0 []).length = 2 ∧
    ((buildMatrix [[⟨"a", 1, 1⟩, ⟨"b", 1, 1⟩], [⟨"c", 1, 1⟩]]).getD 1 []).length = 1 := by
  decide

/-- C5, amended:  For every input table, every grid position of the
produced matrix is either `none` or the text of one of the table's physical
cells; correspondingly, in an interpreted row (`None` read as `""`, as the
row-interpretation loop does) every entry is the empty string or a physical
cell's text.  The rows are not padded to a common length, so the grid need
not be rectangular. -/
theorem C5_matrix_contents (trs : List (List Cell)) :
    (∀ r c, getOpt (buildMatrix trs) r c = none ∨
      ∃ cell ∈ trs.flatten, getOpt (buildMatrix trs) r c = some cell.text) ∧
    (∀ r s, s ∈ ((buildMatrix trs).getD r []).map (fun oc => oc.getD "") →
      s = "" ∨ ∃ cell ∈ trs.flatten, s = cell.text) := by
  have hmain : entriesFrom (trs.flatten.map Cell.text) (buildMatrix trs) := by
    unfold buildMatrix
    apply entriesFrom_tableRowBuild_fold
    · intro row hrow cell hcell
      exact List.mem_map_of_mem _ (List.mem_flatten.mpr ⟨row, hrow, hcell⟩)
    · intro r c
      exact Or.inl rfl
  constructor
  · intro r c
    rcases hmain r c with h | ⟨s, hs, hsome⟩
    · exact Or.inl h
    · obtain ⟨cell, hcell, rfl⟩ := List.mem_map.mp hs
      exact Or.inr ⟨cell, hcell, hsome⟩
  · intro r s hs
    obtain ⟨oc, hoc, rfl⟩ := List.mem_map.mp hs
    rw [List.mem_iff_getElem?] at hoc
    obtain ⟨c, hc⟩ := hoc
    have hval : getOpt (buildMatrix trs) r c = oc := by
      unfold getOpt
      rw [List.getD_eq_getElem?_getD ((buildMatrix trs).getD r []), hc]
      rfl
    rcases hmain r c with h | ⟨s2, hs2, hsome⟩
    · rw [hval] at h
      subst h
      exact Or.inl rfl
    · obtain ⟨cell, hcell, rfl⟩ := List.mem_map.mp hs2
      rw [hval] at hsome
      subst hsome
      exact Or.inr ⟨cell, hcell, rfl⟩

/-- C5, witness:  The interpreted-row clause applied at a concrete
table, row and entry. -/
theorem C5_matrix_contents_witness :
    "a" = "" ∨
    ∃ cell ∈ ([[⟨"a", 1, 1⟩, ⟨"b", 1, 1⟩], [⟨"c", 1, 1⟩]] : List (List Cell)).flatten,
      "a" = cell.text :=
  (C5_matrix_contents [[⟨"a", 1, 1⟩, ⟨"b", 1, 1⟩], [⟨"c", 1, 1⟩]]).2 0 "a" (by decide)

/-! ## C6 — rank gating in table interpretation -/

/-- The spec's rank-gating scenario: a results table whose header row has a
`排名` column and supplier name/address columns, followed by a rank-2 data
row and a rank-1 data row. -/
def rankGatingTable : List (List Cell) :=
  [ [⟨"排名", 1, 1⟩, ⟨"供应商名称", 1, 1⟩, ⟨"供应商地址", 1, 1⟩]
  , [⟨"2", 1, 1⟩, ⟨"乙公司", 1, 1⟩, ⟨"乙街1号", 1, 1⟩]
  , [⟨"1", 1, 1⟩, ⟨"甲公司", 1, 1⟩, ⟨"甲街2号", 1, 1⟩] ]

/-- C6:  Interpreting the rank-gated table from a fresh state: the
header row is adopted with the ranking column active; the rank-`2` row
contributes nothing to any of the nine fields (all stores other than the two
supplier fields stay empty, and the supplier fields hold only the rank-`1`
row's values); the rank-`1` row contributes both its supplier name and its
supplier address. -/
theorem C6_rank_gating :
    ((extract_table initState rankGatingTable).fields "供应商名称").entries =
      [(1, "甲公司")] ∧
    ((extract_table initState rankGatingTable).fields "供应商地址").entries =
      [(2, "甲街2号")] ∧
    (["公告时间", "项目名称", "采购单位名称", "采购单位地址", "中标金额", "采购类别",
      "采购标的"].all fun f =>
        ((extract_table initState rankGatingTable).fields f).entries.isEmpty) = true := by
  refine ⟨by decide, by decide, by decide⟩

end Procurement
